import Mathlib

/-!
# Verification of the wordle-words data-collection pipeline

Shallow embedding of the notebook `data-collection.ipynb`, which builds the
`wordle.csv` dataset: it extracts the `answers` and `wordlist` arrays from the
vendored `wordle.js`, queries the Google Books Ngram endpoint per word (with
retry on HTTP 429), caches results incrementally to `wordle.tsv`, and finally
normalizes, joins, sorts and exports the table.

Numeric statistics are modelled as rationals; the remote HTTP world is
modelled explicitly: a run of responses for `fetch`, and a fetch outcome
(network exception or parsed body) for `getNgramUsage`.
-/

namespace WordleWords

/-! ## Frequency client (`fetch`, `getNgramUsage`) -/

/-- Result of calling `.json()` on a response in `getNgramUsage`:
either the call raises (malformed payload), or it yields a list of result
entries, each of which may or may not carry a `timeseries` list of numbers. -/
inductive NgramBody where
  | parseError : NgramBody
  | results : List (Option (List ℚ)) → NgramBody
deriving DecidableEq

/-- An HTTP response: status code plus (model of the) body. -/
structure HttpResp where
  status : ℕ
  body : NgramBody
deriving DecidableEq

/-- One step/fuel model of the source's `fetch` retry loop: `resps i` is the
response returned by the `i`-th `requests.get` call, `wait` the fixed sleep
interval. On a 429 status the loop sleeps `wait` and retries; we return the
delivered response together with the total time slept, or `none` when the
fuel runs out (the real loop would still be spinning). -/
def fetchAux (resps : ℕ → HttpResp) (wait : ℕ) : ℕ → ℕ → Option (HttpResp × ℕ)
  | _, 0 => none
  | i, fuel + 1 =>
    if (resps i).status = 429 then
      match fetchAux resps wait (i + 1) fuel with
      | none => none
      | some (r, slept) => some (r, slept + wait)
    else
      some (resps i, 0)

/-- `fetch` starts the retry loop at the first request. -/
def fetch (resps : ℕ → HttpResp) (wait fuel : ℕ) : Option (HttpResp × ℕ) :=
  fetchAux resps wait 0 fuel

/-- `np.mean` over the model timeseries: sum divided by length. -/
def meanQ (ts : List ℚ) : ℚ := ts.sum / (ts.length : ℚ)

/-- The `try` block of `getNgramUsage`: `np.mean(res.json()[0]['timeseries'])`,
with every failure (parse error, empty result list, missing `timeseries`
field) caught and turned into the empty value, modelled as `none`. -/
def parseOccurrence : NgramBody → Option ℚ
  | NgramBody.parseError => none
  | NgramBody.results [] => none
  | NgramBody.results (none :: _) => none
  | NgramBody.results (some ts :: _) => some (meanQ ts)

/-- `getNgramUsage`, as a function of the outcome of its `fetch` call.
The `fetch` call sits OUTSIDE the `try` block in the source, so an exception
raised by the request itself (e.g. a network error) propagates; only the
response handling is guarded. -/
def getNgramUsage (fetched : Except Unit NgramBody) : Except Unit (Option ℚ) :=
  match fetched with
  | Except.error e => Except.error e
  | Except.ok body => Except.ok (parseOccurrence body)

/-! ## Resumable cache writer

The cache `wordle.tsv` is modelled as the list of its data rows, in file
order: pairs of a word and an optional occurrence statistic (`none` is the
empty value written for a failed lookup). -/

/-- `queriedWords`: the `word` column of the cache file. -/
def queriedWords (cache : List (String × Option ℚ)) : List String :=
  cache.map Prod.fst

/-- `wordsToQuery = filter(isQueried, words)` with
`isQueried = lambda word : word not in queriedWords`. -/
def wordsToQuery (words : List String) (cache : List (String × Option ℚ)) :
    List String :=
  words.filter (fun w => decide (w ∉ queriedWords cache))

/-- One run of the querying cell: append, for each word not already recorded,
the word together with its looked-up occurrence. -/
def runCacheStep (lookup : String → Option ℚ) (words : List String)
    (cache : List (String × Option ℚ)) : List (String × Option ℚ) :=
  cache ++ (wordsToQuery words cache).map (fun w => (w, lookup w))

/-- The cache state reached when a from-scratch run is interrupted after `k`
rows have been appended. -/
def interruptedCache (lookup : String → Option ℚ) (words : List String)
    (k : ℕ) : List (String × Option ℚ) :=
  ((words.map (fun w => (w, lookup w))).take k)

/-! ## Dataset assembler -/

/-- A row of the exported `wordle.csv`. -/
structure Row where
  word : String
  occurrence : ℚ
  day : Option ℕ
deriving DecidableEq

/-- `data['word'].apply(lambda w: answers.index(w) if w in answers else None)`. -/
def computeDay (answers : List String) (w : String) : Option ℕ :=
  if w ∈ answers then some (answers.indexOf w) else none

/-- Lexicographic comparison of character lists by code point, the order in
which `sort_values` sorts a string column. -/
def lexLe : List Char → List Char → Bool
  | [], _ => true
  | _ :: _, [] => false
  | a :: as, b :: bs => if a = b then lexLe as bs else decide (a < b)

/-- Lexicographic comparison of words. -/
def wordLe (a b : String) : Bool := lexLe a.toList b.toList

/-- The assembler: read the cache, replace missing occurrences by `0`,
attach each word's day, and sort the rows by word
(`data.sort_values('word')`). -/
def assemble (answers : List String) (cache : List (String × Option ℚ)) :
    List Row :=
  (cache.map (fun p => Row.mk p.1 (p.2.getD 0) (computeDay answers p.1))).insertionSort
    (fun a b => wordLe a.word b.word = true)

/-- The whole pipeline from an empty cache: `words = wordlist + answers`,
query everything, then assemble. -/
def pipeline (lookup : String → Option ℚ) (wordlist answers : List String) :
    List Row :=
  assemble answers (runCacheStep lookup (wordlist ++ answers) [])

/-! ## Array extractor (`array2List` and the read of `wordle.js`) -/

/-- The characters matched by the regex class `\s` used in `array2List`. -/
def isPyWs (c : Char) : Bool :=
  c = ' ' || c = '\t' || c = '\n' || c = '\r' || c = '\x0b' || c = '\x0c'

/-- Python `str.split(sep)` for a one-character separator, over the
character list; `"".split(sep) == [""]`. -/
def pySplit (sep : Char) : List Char → List (List Char)
  | [] => [[]]
  | c :: cs =>
    if c = sep then [] :: pySplit sep cs
    else
      match pySplit sep cs with
      | [] => [[c]]
      | h :: t => (c :: h) :: t

/-- `array2List = lambda arr : re.sub(r'\"|\s', '', arr[1:-1]).split(",")`. -/
def array2List (arr : List Char) : List String :=
  let inner := (arr.drop 1).dropLast
  let cleaned := inner.filter (fun c => !(c = '"' || isPyWs c))
  (pySplit ',' cleaned).map List.asString

/-- The extraction cell: split the file contents on newlines, index lines
1117 and 1118 (an out-of-range index raises, modelled as `Except.error`),
drop the first 13 characters of each and run `array2List`. -/
def extractArrays (txt : List Char) :
    Except Unit (List String × List String) :=
  match (pySplit '\n' txt)[1117]? with
  | none => Except.error ()
  | some l1 =>
    match (pySplit '\n' txt)[1118]? with
    | none => Except.error ()
    | some l2 => Except.ok (array2List (l1.drop 13), array2List (l2.drop 13))

/-! ## Claim theorems -/

/-- Claim C1: end-to-end example. With word-list `["abcde"]`, answers
`["bcdef", "cdefg"]`, and a lookup returning `0.1` for `abcde`, missing for
`bcdef` and `0.2` for `cdefg`, the pipeline produces exactly the rows
`abcde, 0.1, (empty day)`; `bcdef, 0.0, 0`; `cdefg, 0.2, 1`, in this order. -/
theorem c1_end_to_end_example :
    pipeline
      (fun w => if w = "abcde" then some (1 / 10)
                else if w = "cdefg" then some (1 / 5) else none)
      ["abcde"] ["bcdef", "cdefg"] =
    [Row.mk "abcde" (1 / 10) none, Row.mk "bcdef" 0 (some 0),
      Row.mk "cdefg" (1 / 5) (some 1)] := rfl

/-- Claim C6 is refuted as stated: a network error raised by the request
itself is NOT converted to the missing value. The `fetch` call sits outside
the `try` block of `getNgramUsage`, so the exception propagates instead of
producing the empty value. -/
theorem c6_counterexample :
    getNgramUsage (Except.error ()) = Except.error () ∧
    getNgramUsage (Except.error ()) ≠ Except.ok none :=
  ⟨rfl, fun h => Except.noConfusion h⟩

/-- Claim C6 (amended): response handling is total — for every parsed-body
outcome `getNgramUsage` returns a value rather than raising, and each
handled failure shape (JSON parse error, empty result list, first entry
without a `timeseries` field) yields the missing value; but an exception
raised by the request itself propagates out of `getNgramUsage`, since the
request is performed outside the `try` block. -/
theorem c6_amended_response_handling_total :
    (∀ body : NgramBody, ∃ v : Option ℚ,
        getNgramUsage (Except.ok body) = Except.ok v) ∧
    getNgramUsage (Except.ok NgramBody.parseError) = Except.ok none ∧
    getNgramUsage (Except.ok (NgramBody.results [])) = Except.ok none ∧
    (∀ rest, getNgramUsage (Except.ok (NgramBody.results (none :: rest))) =
        Except.ok none) ∧
    (∀ e, getNgramUsage (Except.error e) = Except.error e) :=
  ⟨fun body => ⟨parseOccurrence body, rfl⟩, rfl, rfl, fun _ => rfl, fun _ => rfl⟩

/-- Claim C7: when the remote response parses to JSON whose first result
entry carries a (nonempty) `timeseries`, the statistic returned by the
lookup is the arithmetic mean of that time series. -/
theorem c7_statistic_is_mean (ts : List ℚ) (rest : List (Option (List ℚ)))
    (_hne : ts ≠ []) :
    getNgramUsage (Except.ok (NgramBody.results (some ts :: rest))) =
      Except.ok (some (ts.sum / (ts.length : ℚ))) := rfl

theorem c7_witness :
    ([(1 : ℚ)] ≠ []) ∧
    getNgramUsage (Except.ok (NgramBody.results (some [(1 : ℚ)] :: []))) =
      Except.ok (some (List.sum [(1 : ℚ)] / (List.length [(1 : ℚ)] : ℚ))) :=
  ⟨List.cons_ne_nil _ _, c7_statistic_is_mean [(1 : ℚ)] [] (List.cons_ne_nil _ _)⟩

theorem fetchAux_all_rate_limited (resps : ℕ → HttpResp) (wait : ℕ)
    (h : ∀ n, (resps n).status = 429) :
    ∀ fuel i, fetchAux resps wait i fuel = none := by
  intro fuel
  induction fuel with
  | zero => intro i; rfl
  | succ fuel ih => intro i; simp [fetchAux, h i, ih (i + 1)]

theorem fetchAux_first_success (resps : ℕ → HttpResp) (wait : ℕ) :
    ∀ (k i : ℕ), (resps (i + k)).status ≠ 429 →
      (∀ m, m < k → (resps (i + m)).status = 429) →
      ∀ fuel, k < fuel →
        fetchAux resps wait i fuel = some (resps (i + k), k * wait) := by
  intro k
  induction k with
  | zero =>
    intro i hk _ fuel hfuel
    match fuel, hfuel with
    | fuel + 1, _ =>
      simp only [Nat.add_zero] at hk
      simp [fetchAux, hk]
  | succ k ih =>
    intro i hk hm fuel hfuel
    match fuel, hfuel with
    | fuel + 1, hfuel =>
      have h0 : (resps i).status = 429 := by
        have := hm 0 (Nat.succ_pos k)
        simpa using this
      have hk' : (resps (i + 1 + k)).status ≠ 429 := by
        have he : i + 1 + k = i + (k + 1) := by omega
        rw [he]; exact hk
      have hm' : ∀ m, m < k → (resps (i + 1 + m)).status = 429 := by
        intro m hmk
        have he : i + 1 + m = i + (m + 1) := by omega
        rw [he]; exact hm (m + 1) (Nat.succ_lt_succ hmk)
      have hrec := ih (i + 1) hk' hm' fuel (Nat.lt_of_succ_lt_succ hfuel)
      have he : i + 1 + k = i + (k + 1) := by omega
      rw [he] at hrec
      simp [fetchAux, h0, hrec, Nat.succ_mul]

/-- Claim C8: if every response to the repeated request has status 429 the
retry loop never returns (no amount of fuel suffices); and if some response
is the first non-429 one, `fetch` returns exactly that response, having
slept the fixed interval once per retry (so `n * wait` in total when the
first success is the `n`-th request). -/
theorem c8_fetch_retry_behaviour :
    (∀ (resps : ℕ → HttpResp) (wait : ℕ), (∀ n, (resps n).status = 429) →
      ∀ fuel, fetch resps wait fuel = none) ∧
    (∀ (resps : ℕ → HttpResp) (wait n : ℕ), (resps n).status ≠ 429 →
      (∀ m, m < n → (resps m).status = 429) →
      ∀ fuel, n < fuel → fetch resps wait fuel = some (resps n, n * wait)) := by
  constructor
  · intro resps wait h fuel
    exact fetchAux_all_rate_limited resps wait h fuel 0
  · intro resps wait n hn hm fuel hf
    have := fetchAux_first_success resps wait n 0 (by simpa using hn)
      (by simpa using hm) fuel hf
    simpa [fetch] using this

/-- A response stream that is always rate-limited. -/
def resps429 : ℕ → HttpResp := fun _ => HttpResp.mk 429 NgramBody.parseError

/-- A response stream rate-limited only on the first request. -/
def respsOK : ℕ → HttpResp := fun i =>
  if i = 0 then HttpResp.mk 429 NgramBody.parseError
  else HttpResp.mk 200 NgramBody.parseError

theorem c8_witness :
    fetch resps429 1 5 = none ∧ fetch respsOK 1 3 = some (respsOK 1, 1 * 1) :=
  ⟨c8_fetch_retry_behaviour.1 resps429 1 (fun _ => rfl) 5,
   c8_fetch_retry_behaviour.2 respsOK 1 1 (by decide)
     (fun m hm => by
       have : m = 0 := by omega
       subst this; rfl) 3 (by decide)⟩

/-- A source text with exactly 1119 lines whose lines 1117 and 1118 read
`xyz` — present, but certainly not well-formed array literals. -/
def malformedSource : List Char :=
  List.replicate 1117 '\n' ++ String.toList "xyz\nxyz"

set_option maxRecDepth 20000 in
/-- Claim C9 is refuted as stated: on a text whose designated lines exist
but are malformed (they read `xyz`, not array literals), the extraction does
not fail — it happily returns the garbage word sequence `[""]` for both
arrays. Only a missing line is fatal. -/
theorem c9_counterexample :
    extractArrays malformedSource = Except.ok ([""], [""]) := by
  rfl

/-- Claim C9 (amended): the extraction step fails fatally exactly when the
file has too few lines for the known offsets (the index raises); whenever
lines 1117 and 1118 both exist the step returns word sequences, well-formed
array literal or not. -/
theorem c9_amended_only_missing_lines_fatal (txt : List Char) :
    ((pySplit '\n' txt).length ≤ 1118 → extractArrays txt = Except.error ()) ∧
    (1118 < (pySplit '\n' txt).length →
      ∃ a w, extractArrays txt = Except.ok (a, w)) := by
  constructor
  · intro h
    have h18 : (pySplit '\n' txt)[1118]? = none := List.getElem?_eq_none h
    unfold extractArrays
    cases h17 : (pySplit '\n' txt)[1117]? with
    | none => simp [h17]
    | some l1 => simp [h17, h18]
  · intro h
    have h17 : 1117 < (pySplit '\n' txt).length := by omega
    unfold extractArrays
    rw [List.getElem?_eq_getElem h17, List.getElem?_eq_getElem h]
    exact ⟨_, _, rfl⟩

set_option maxRecDepth 20000 in
theorem c9_amended_witness :
    extractArrays [] = Except.error () ∧
    ∃ a w, extractArrays malformedSource = Except.ok (a, w) :=
  ⟨(c9_amended_only_missing_lines_fatal []).1 (by decide),
   (c9_amended_only_missing_lines_fatal malformedSource).2 (by decide)⟩

/-! ### Helper lemmas about the cache step and the assembler -/

theorem mem_assemble {answers : List String} {cache : List (String × Option ℚ)}
    {r : Row} : r ∈ assemble answers cache ↔
      ∃ p ∈ cache, r = Row.mk p.1 (p.2.getD 0) (computeDay answers p.1) := by
  unfold assemble
  rw [List.mem_insertionSort, List.mem_map]
  constructor
  · rintro ⟨p, hp, rfl⟩
    exact ⟨p, hp, rfl⟩
  · rintro ⟨p, hp, rfl⟩
    exact ⟨p, hp, rfl⟩

theorem map_fst_pair (lookup : String → Option ℚ) (l : List String) :
    (l.map (fun w => (w, lookup w))).map Prod.fst = l := by
  induction l with
  | nil => rfl
  | cons x xs ih => simp [ih]

theorem assemble_words_perm (answers : List String)
    (cache : List (String × Option ℚ)) :
    ((assemble answers cache).map Row.word).Perm (cache.map Prod.fst) := by
  have h := (List.perm_insertionSort
    (fun a b : Row => wordLe a.word b.word = true)
    (cache.map (fun p => Row.mk p.1 (p.2.getD 0) (computeDay answers p.1)))).map Row.word
  simpa [assemble, List.map_map, Function.comp] using h

theorem runCacheStep_empty (lookup : String → Option ℚ)
    (words : List String) :
    runCacheStep lookup words [] = words.map (fun w => (w, lookup w)) := by
  simp [runCacheStep, wordsToQuery, queriedWords]

theorem filter_not_mem_take (l : List String) (k : ℕ) (hnd : l.Nodup) :
    l.filter (fun w => decide (w ∉ l.take k)) = l.drop k := by
  have hdisjtd : List.Disjoint (l.take k) (l.drop k) :=
    List.disjoint_take_drop hnd (le_refl k)
  have key : ∀ t : List String, t = l.take k →
      l.filter (fun w => decide (w ∉ t)) = l.drop k := by
    intro t ht
    conv_lhs => rw [← List.take_append_drop k l]
    rw [List.filter_append]
    have h1 : (l.take k).filter (fun w => decide (w ∉ t)) = [] := by
      rw [List.filter_eq_nil_iff]
      intro a ha
      simp only [decide_eq_true_eq, not_not]
      exact ht ▸ ha
    have h2 : (l.drop k).filter (fun w => decide (w ∉ t)) = l.drop k := by
      rw [List.filter_eq_self]
      intro a ha
      simp only [decide_eq_true_eq]
      exact fun hmem => hdisjtd (ht ▸ hmem) ha
    rw [h1, h2, List.nil_append]
  exact key (l.take k) rfl

/-- Claim C2: with disjoint, duplicate-free word-list and answers, every
word of the combined universe gets exactly one output row, and no other
rows exist. -/
theorem c2_one_row_per_word (lookup : String → Option ℚ)
    (wl ans : List String) (hwl : wl.Nodup) (hans : ans.Nodup)
    (hdisj : ∀ w ∈ wl, w ∉ ans) (w : String) :
    ((pipeline lookup wl ans).map Row.word).count w =
      if w ∈ wl ∨ w ∈ ans then 1 else 0 := by
  have hcache : (runCacheStep lookup (wl ++ ans) []).map Prod.fst = wl ++ ans := by
    rw [runCacheStep_empty, map_fst_pair]
  have hperm := assemble_words_perm ans (runCacheStep lookup (wl ++ ans) [])
  rw [hcache] at hperm
  rw [show pipeline lookup wl ans =
      assemble ans (runCacheStep lookup (wl ++ ans) []) from rfl]
  rw [hperm.count_eq, List.count_append]
  by_cases h1 : w ∈ wl
  · rw [List.count_eq_one_of_mem hwl h1,
      List.count_eq_zero_of_not_mem (hdisj w h1), if_pos (Or.inl h1)]
  · by_cases h2 : w ∈ ans
    · rw [List.count_eq_zero_of_not_mem h1,
        List.count_eq_one_of_mem hans h2, if_pos (Or.inr h2)]
    · rw [List.count_eq_zero_of_not_mem h1,
        List.count_eq_zero_of_not_mem h2, if_neg (by tauto)]

theorem c2_witness :
    (["abcde"] : List String).Nodup ∧ (["bcdef"] : List String).Nodup ∧
    (∀ w ∈ (["abcde"] : List String), w ∉ (["bcdef"] : List String)) ∧
    ((pipeline (fun _ => (none : Option ℚ)) ["abcde"] ["bcdef"]).map
        Row.word).count "abcde" =
      if "abcde" ∈ (["abcde"] : List String) ∨
          "abcde" ∈ (["bcdef"] : List String) then 1 else 0 :=
  ⟨by decide, by decide, by decide,
   c2_one_row_per_word (fun _ => (none : Option ℚ)) ["abcde"] ["bcdef"]
     (by decide) (by decide) (by decide) "abcde"⟩

/-- Claim C3: resume equivalence. If a from-scratch run over a
duplicate-free universe is interrupted after `k` appended rows, re-running
the cache step never re-queries a recorded word, reproduces exactly the
cache of an uninterrupted run, and hence the assembler output coincides
with the uninterrupted one (the same lookup function is used throughout). -/
theorem c3_resume_equivalence (lookup : String → Option ℚ)
    (words ans : List String) (k : ℕ) (hnd : words.Nodup) :
    (∀ w ∈ queriedWords (interruptedCache lookup words k),
        w ∉ wordsToQuery words (interruptedCache lookup words k)) ∧
    runCacheStep lookup words (interruptedCache lookup words k) =
      runCacheStep lookup words [] ∧
    assemble ans (runCacheStep lookup words (interruptedCache lookup words k)) =
      assemble ans (runCacheStep lookup words []) := by
  have hq : queriedWords (interruptedCache lookup words k) = words.take k := by
    rw [queriedWords, interruptedCache, ← List.map_take, map_fst_pair]
  have hdisjtd : List.Disjoint (words.take k) (words.drop k) :=
    List.disjoint_take_drop hnd (le_refl k)
  have hwtq : wordsToQuery words (interruptedCache lookup words k) =
      words.drop k := by
    rw [wordsToQuery, hq, filter_not_mem_take words k hnd]
  have heq : runCacheStep lookup words (interruptedCache lookup words k) =
      runCacheStep lookup words [] := by
    rw [runCacheStep, hwtq, runCacheStep_empty, interruptedCache,
      ← List.map_take, ← List.map_append, List.take_append_drop]
  refine ⟨?_, heq, by rw [heq]⟩
  intro w hw
  rw [hwtq]
  rw [hq] at hw
  exact fun hd => hdisjtd hw hd

theorem c3_witness :
    (["aa", "bb"] : List String).Nodup ∧
    ((∀ w ∈ queriedWords
          (interruptedCache (fun _ => (none : Option ℚ)) ["aa", "bb"] 1),
        w ∉ wordsToQuery ["aa", "bb"]
          (interruptedCache (fun _ => (none : Option ℚ)) ["aa", "bb"] 1)) ∧
     runCacheStep (fun _ => (none : Option ℚ)) ["aa", "bb"]
        (interruptedCache (fun _ => (none : Option ℚ)) ["aa", "bb"] 1) =
       runCacheStep (fun _ => (none : Option ℚ)) ["aa", "bb"] [] ∧
     assemble [] (runCacheStep (fun _ => (none : Option ℚ)) ["aa", "bb"]
        (interruptedCache (fun _ => (none : Option ℚ)) ["aa", "bb"] 1)) =
       assemble [] (runCacheStep (fun _ => (none : Option ℚ)) ["aa", "bb"] [])) :=
  ⟨by decide,
   c3_resume_equivalence (fun _ => (none : Option ℚ)) ["aa", "bb"] [] 1
     (by decide)⟩

/-- Claim C4: every answer word receives as day its zero-based index in the
answers sequence, and every row of a non-answer word has a null day. -/
theorem c4_day_is_answer_index (lookup : String → Option ℚ)
    (wl ans : List String) :
    (∀ w ∈ ans, ∃ r ∈ pipeline lookup wl ans,
        r.word = w ∧ r.day = some (ans.indexOf w)) ∧
    (∀ r ∈ pipeline lookup wl ans,
        (r.word ∈ ans → r.day = some (ans.indexOf r.word)) ∧
        (r.word ∉ ans → r.day = none)) := by
  constructor
  · intro w hw
    refine ⟨Row.mk w ((lookup w).getD 0) (computeDay ans w), ?_, rfl, ?_⟩
    · rw [show pipeline lookup wl ans =
          assemble ans (runCacheStep lookup (wl ++ ans) []) from rfl,
        mem_assemble]
      refine ⟨(w, lookup w), ?_, rfl⟩
      rw [runCacheStep_empty]
      exact List.mem_map_of_mem _ (List.mem_append_right wl hw)
    · simp [computeDay, hw]
  · intro r hr
    rw [show pipeline lookup wl ans =
        assemble ans (runCacheStep lookup (wl ++ ans) []) from rfl,
      mem_assemble] at hr
    obtain ⟨p, _, rfl⟩ := hr
    refine ⟨fun h => ?_, fun h => ?_⟩
    · show computeDay ans p.1 = some (ans.indexOf p.1)
      unfold computeDay
      rw [if_pos h]
    · show computeDay ans p.1 = none
      unfold computeDay
      rw [if_neg h]

theorem c4_witness :
    ∃ r ∈ pipeline (fun _ => (none : Option ℚ)) ["zz"] ["aa"],
      r.word = "aa" ∧ r.day = some (List.indexOf "aa" ["aa"]) :=
  (c4_day_is_answer_index (fun _ => (none : Option ℚ)) ["zz"] ["aa"]).1
    "aa" (by decide)

/-- Claim C5: provided every statistic recorded in the cache is the mean of
a non-negative remote time series, every assembled row carries a non-null,
non-negative occurrence: exactly `0` when the cached value is missing, and
the cached statistic otherwise. -/
theorem c5_occurrence_nonneg (ans : List String)
    (cache : List (String × Option ℚ))
    (hts : ∀ p ∈ cache, ∀ q : ℚ, p.2 = some q →
      ∃ ts : List ℚ, (∀ x ∈ ts, 0 ≤ x) ∧ q = meanQ ts) :
    ∀ r ∈ assemble ans cache,
      0 ≤ r.occurrence ∧
      ∃ o : Option ℚ, (r.word, o) ∈ cache ∧ r.occurrence = o.getD 0 ∧
        (o = none → r.occurrence = 0) := by
  intro r hr
  rw [mem_assemble] at hr
  obtain ⟨p, hp, rfl⟩ := hr
  have hocc : (0 : ℚ) ≤ p.2.getD 0 := by
    cases hpo : p.2 with
    | none => simp
    | some q =>
      obtain ⟨ts, hts0, rfl⟩ := hts p hp q hpo
      have hsum : (0 : ℚ) ≤ ts.sum := List.sum_nonneg hts0
      have hlen : (0 : ℚ) ≤ (ts.length : ℚ) := by positivity
      simpa [meanQ] using div_nonneg hsum hlen
  refine ⟨hocc, p.2, ?_, rfl, fun h => by simp [h]⟩
  simpa using hp

theorem c5_witness :
    0 ≤ (Row.mk "aa" (0 : ℚ) (some 0)).occurrence ∧
    ∃ o : Option ℚ,
      ((Row.mk "aa" (0 : ℚ) (some 0)).word, o) ∈
          [("aa", (none : Option ℚ))] ∧
      (Row.mk "aa" (0 : ℚ) (some 0)).occurrence = o.getD 0 ∧
      (o = none → (Row.mk "aa" (0 : ℚ) (some 0)).occurrence = 0) :=
  c5_occurrence_nonneg ["aa"] [("aa", (none : Option ℚ))]
    (by
      rintro p hp q hq
      simp only [List.mem_singleton] at hp
      subst hp
      simp at hq)
    (Row.mk "aa" (0 : ℚ) (some 0)) (by decide)

/-- Claim C10: the resume check looks only at the word column, so a word
recorded with a missing occurrence is never re-fetched: it is skipped by
`wordsToQuery`, its missing record survives the cache step, and the final
output carries it with occurrence `0`. -/
theorem c10_missing_occurrence_counts_as_queried
    (lookup : String → Option ℚ) (words ans : List String)
    (cache0 : List (String × Option ℚ)) (w : String)
    (hmem : (w, (none : Option ℚ)) ∈ cache0) :
    w ∉ wordsToQuery words cache0 ∧
    (w, (none : Option ℚ)) ∈ runCacheStep lookup words cache0 ∧
    ∃ r ∈ assemble ans (runCacheStep lookup words cache0),
      r.word = w ∧ r.occurrence = 0 := by
  have hq : w ∈ queriedWords cache0 := List.mem_map_of_mem Prod.fst hmem
  refine ⟨?_, List.mem_append_left _ hmem, ?_⟩
  · intro hwq
    rw [wordsToQuery, List.mem_filter] at hwq
    have h2 := hwq.2
    simp only [decide_eq_true_eq] at h2
    exact h2 hq
  · refine ⟨Row.mk w ((none : Option ℚ).getD 0) (computeDay ans w), ?_, rfl, rfl⟩
    rw [mem_assemble]
    exact ⟨(w, none), List.mem_append_left _ hmem, rfl⟩

theorem c10_witness :
    ("aa", (none : Option ℚ)) ∈ [("aa", (none : Option ℚ))] ∧
    ("aa" ∉ wordsToQuery ["bb"] [("aa", (none : Option ℚ))] ∧
     ("aa", (none : Option ℚ)) ∈
        runCacheStep (fun _ => (none : Option ℚ)) ["bb"]
          [("aa", (none : Option ℚ))] ∧
     ∃ r ∈ assemble []
          (runCacheStep (fun _ => (none : Option ℚ)) ["bb"]
            [("aa", (none : Option ℚ))]),
        r.word = "aa" ∧ r.occurrence = 0) :=
  ⟨by decide,
   c10_missing_occurrence_counts_as_queried (fun _ => (none : Option ℚ))
     ["bb"] [] [("aa", (none : Option ℚ))] "aa" (by decide)⟩

end WordleWords
